import Mathlib

/-!
Verification development for the ice-runtime pairing flow.

The repository ships a single source file,
`src/ice_runtime/daemon/ui/daemon.js`: a browser-side poller/renderer for
the daemon's pairing approval flow.  The first half of this file embeds
that client script; the second half models the backend components that the
specification describes (RequestStore, TrustLedger, PairingService), whose
code is not part of the visible sources.
-/

namespace DaemonJs

/-- Model of the JavaScript `String.prototype.toUpperCase()` call used at
`daemon.js` line 27 (`r.status.toUpperCase()`): uppercases every character. -/
def jsToUpper (s : String) : String :=
  String.mk (s.data.map Char.toUpper)

/-- Wire-format entry of `GET /daemon/pairing/requests` as consumed by
`fetchRequests` (`daemon.js` lines 13-40): `{request_id, client_ip, status}`.
`client_ip` may be absent, rendered as the fallback at line 19. -/
structure ReqEntry where
  request_id : String
  client_ip : Option String
  status : String
deriving DecidableEq

/-- Parsed body of `GET /daemon/pairing/requests`.  The `requests` field may
be missing or null, which `daemon.js` line 7 defaults with `|| []`. -/
structure RequestsBody where
  requests : Option (List ReqEntry)
deriving DecidableEq

/-- Outcome of a `fetch` call as observed by the handlers: the promise either
rejects (network error) or resolves with an HTTP ok-flag (`res.ok`) and a
body whose JSON parse may fail (`res.json()` throwing). -/
inductive FetchOutcome (α : Type) where
  | networkError : FetchOutcome α
  | response (httpOk : Bool) (body : Except Unit α) : FetchOutcome α

/-- What a run of `fetchRequests` does to the page: nothing, the empty-state
paragraph of lines 9-10, or the request card of lines 15-40.  The card fields
record the rendered client, request id and status texts and the request id
each of the two buttons (lines 31-36) is wired to. -/
inductive RenderAction where
  | noChange : RenderAction
  | emptyState : RenderAction
  | card (clientShown requestIdShown statusShown ignoreWiredTo acceptWiredTo : String) :
      RenderAction
deriving DecidableEq

/-- The card `fetchRequests` renders for entry `r` (`daemon.js` lines 15-40):
client text `r.client_ip || "unknown"`, the request id, the status uppercased
for display, and both buttons wired to `r.request_id`. -/
def cardOf (r : ReqEntry) : RenderAction :=
  RenderAction.card (Option.getD r.client_ip ("unknown")) r.request_id
    (jsToUpper r.status) r.request_id r.request_id

/-- Observable effect of one `fetchRequests` run: the page mutation, whether
`console.error` fired, and whether an exception escaped the handler. -/
structure FetchStep where
  render : RenderAction
  logged : Bool
  throws : Bool
deriving DecidableEq

/-- Embedding of `fetchRequests` (`daemon.js` lines 1-44).  A rejected fetch
is caught and logged (lines 41-43); a non-2xx response returns silently
(line 4); a JSON-parse failure is caught and logged; otherwise the handler
renders the empty state when `data.requests || []` is empty (lines 7-12) and
the card of `reqs[0]` otherwise (lines 13-40). -/
def fetchRequests : FetchOutcome RequestsBody → FetchStep
  | FetchOutcome.networkError => ⟨RenderAction.noChange, true, false⟩
  | FetchOutcome.response false _ => ⟨RenderAction.noChange, false, false⟩
  | FetchOutcome.response true (Except.error _) => ⟨RenderAction.noChange, true, false⟩
  | FetchOutcome.response true (Except.ok data) =>
    match Option.getD data.requests [] with
    | [] => ⟨RenderAction.emptyState, false, false⟩
    | r :: _ => ⟨cardOf r, false, false⟩

/-- Under the list contract (ordered by `created_at` ascending, oldest
first), the most recent entry of a returned list is its last element.  This
definition follows the specification's words, for comparison with what
`fetchRequests` actually renders. -/
def mostRecent (l : List ReqEntry) : Option ReqEntry :=
  l.getLast?

/-- The fixed polling interval of `daemon.js` line 83
(`setInterval(fetchRequests, 4000)`), in milliseconds. -/
def pollIntervalMs : Nat := 4000

/-- The poller: each interval tick runs `fetchRequests` on that tick's fetch
outcome, unconditionally and independently of prior outcomes. -/
def pollRun (outs : List (FetchOutcome RequestsBody)) : List FetchStep :=
  outs.map fetchRequests

/-- Parsed body of `POST /daemon/pairing/approve`: `{ok, status}`; the
`status` field may be absent. -/
structure ApproveBody where
  ok : Bool
  status : Option String
deriving DecidableEq

/-- Success message of `daemon.js` lines 56-57. -/
def successMsg : String := "❄ Flake added – this host is now trusted by ICE Studio."

/-- Failure message of `daemon.js` line 62. -/
def failMsg : String := "Failed to approve flake."

/-- Observable effect of one run of the `approve` click handler: the text
written to the status row, whether `window.close` was scheduled, whether
`console.error` fired, and whether an exception escaped. -/
structure ApproveStep where
  statusRowText : Option String
  windowCloseScheduled : Bool
  logged : Bool
  throws : Bool
deriving DecidableEq

/-- Embedding of the `approve` click handler (`daemon.js` lines 46-67).  The
handler never checks `res.ok`; it parses the body (a parse failure is caught
and logged) and tests `data.ok && data.status === "approved"` — a
case-sensitive string comparison — choosing the success or failure text. -/
def approveHandler : FetchOutcome ApproveBody → ApproveStep
  | FetchOutcome.networkError => ⟨none, false, true, false⟩
  | FetchOutcome.response _ (Except.error _) => ⟨none, false, true, false⟩
  | FetchOutcome.response _ (Except.ok data) =>
    if data.ok && data.status == some ("approved") then
      ⟨some successMsg, true, false, false⟩
    else
      ⟨some failMsg, false, false, false⟩

/-- Outcome of the `fetch` inside the `dismiss` handler.  The body is kept
opaque (type `β`): the handler never calls `res.json()`. -/
inductive DismissOutcome (β : Type) where
  | networkError : DismissOutcome β
  | response (httpOk : Bool) (rawBody : β) : DismissOutcome β

/-- Observable effect of one run of the `dismiss` click handler: whether the
request list was re-fetched, whether `console.error` fired, and whether an
exception escaped. -/
structure DismissStep where
  refetch : Bool
  logged : Bool
  throws : Bool
deriving DecidableEq

/-- Embedding of the `dismiss` click handler (`daemon.js` lines 69-80): any
resolved response — whatever its status or body — is followed by
`fetchRequests()`; a rejected fetch is caught and logged with no re-fetch. -/
def dismissHandler {β : Type} : DismissOutcome β → DismissStep
  | DismissOutcome.networkError => ⟨false, true, false⟩
  | DismissOutcome.response _ _ => ⟨true, false, false⟩

end DaemonJs

namespace Core

/-- Modelled from the spec: the `status` field of a PairingRequest, one of
{pending, approved, dismissed, expired} (spec section 3); the backend is not
among the visible sources. -/
inductive Status where
  | pending : Status
  | approved : Status
  | dismissed : Status
  | expired : Status
deriving DecidableEq

/-- Modelled from the spec: a PairingRequest record (spec section 3) —
`request_id` (opaque unique id, here a natural), `client_ip` (advisory,
may be absent), `status`, and `created_at` (used for expiry and ordering). -/
structure PairingRequest where
  request_id : Nat
  client_ip : Option String
  status : Status
  created_at : Nat
deriving DecidableEq

/-- Modelled from the spec: a TrustedClient record (spec section 3) —
`client_id` and `granted_at`. -/
structure TrustedClient where
  client_id : String
  granted_at : Nat
deriving DecidableEq

/-- Modelled from the spec: the shared mutable state — the RequestStore's
requests (with its fresh-id counter, capacity bound and expiry window) and
the TrustLedger's trusted set (spec sections 3-5). -/
structure Store where
  requests : List PairingRequest
  trusted : List TrustedClient
  next_id : Nat
  capacity : Nat
  expiry_window : Nat
deriving DecidableEq

/-- Modelled from the spec: the RequestStore error taxonomy (spec section 7). -/
inductive StoreError where
  | notFound : StoreError
  | invalidTransition : StoreError
  | capacityExceeded : StoreError
deriving DecidableEq

/-- A request has crossed the expiry threshold at time `now` when its age
reaches the window. -/
def expiredAt (w now : Nat) (r : PairingRequest) : Bool :=
  decide (r.created_at + w ≤ now)

/-- Modelled from the spec: RequestStore.get — lookup by request id. -/
def getReq (s : Store) (id : Nat) : Option PairingRequest :=
  s.requests.find? (fun r => r.request_id == id)

/-- The stored status of the request with the given id, when present. -/
def statusOf (s : Store) (id : Nat) : Option Status :=
  Option.map PairingRequest.status (getReq s id)

/-- Lazy expiry of a single record: a pending request past the threshold is
transitioned to `expired`; every other record is untouched. -/
def sweepOne (w now : Nat) (r : PairingRequest) : PairingRequest :=
  if r.status == Status.pending && expiredAt w now r then
    { r with status := Status.expired }
  else r

/-- Modelled from the spec: the lazy expiry pass performed on read — every
pending request past the expiry threshold is transitioned to `expired`
(spec section 4.1); nothing else changes. -/
def sweep (s : Store) (now : Nat) : Store :=
  { s with requests := s.requests.map (sweepOne s.expiry_window now) }

/-- Number of requests currently marked pending. -/
def countPending (s : Store) : Nat :=
  (s.requests.filter (fun r => r.status == Status.pending)).length

/-- Modelled from the spec: RequestStore.admit — creates a fresh pending
request, failing with CapacityExceeded when the pending count has reached
the configured bound (spec section 4.1).  Named admitRequest here. -/
def admitRequest (s : Store) (ip : Option String) (now : Nat) :
    Except StoreError (Store × Nat) :=
  if s.capacity ≤ countPending s then
    Except.error StoreError.capacityExceeded
  else
    Except.ok
      ({ s with
          requests := s.requests ++ [⟨s.next_id, ip, Status.pending, now⟩],
          next_id := s.next_id + 1 }, s.next_id)

/-- Overwrite the status of the request with the given id. -/
def setStatus (s : Store) (id : Nat) (st : Status) : Store :=
  { s with
      requests := s.requests.map
        (fun r => if r.request_id == id then { r with status := st } else r) }

/-- Modelled from the spec: RequestStore.transition — atomically moves a
request from `pending` to `approved` or `dismissed`; fails with NotFound on
an unknown id and with InvalidTransition when the request is not currently
pending, including when it has already crossed the expiry threshold
(spec section 4.1). -/
def transition (s : Store) (id : Nat) (new : Status) (now : Nat) :
    Except StoreError Store :=
  match getReq s id with
  | none => Except.error StoreError.notFound
  | some r =>
    if (new == Status.approved || new == Status.dismissed)
        && r.status == Status.pending
        && !expiredAt s.expiry_window now r then
      Except.ok (setStatus s id new)
    else
      Except.error StoreError.invalidTransition

/-- Insert a request into a list sorted by `created_at` ascending. -/
def insertByCreated (r : PairingRequest) :
    List PairingRequest → List PairingRequest
  | [] => [r]
  | x :: xs =>
    if r.created_at ≤ x.created_at then r :: x :: xs
    else x :: insertByCreated r xs

/-- Sort a request list by `created_at` ascending (oldest first). -/
def sortByCreated : List PairingRequest → List PairingRequest
  | [] => []
  | x :: xs => insertByCreated x (sortByCreated xs)

/-- Modelled from the spec: RequestStore.list_pending — applies the lazy
expiry pass, then returns the requests still pending ordered by
`created_at` ascending, together with the store after the pass
(spec section 4.1). -/
def list_pending (s : Store) (now : Nat) : List PairingRequest × Store :=
  let s2 := sweep s now
  (sortByCreated (s2.requests.filter (fun r => r.status == Status.pending)), s2)

/-- Modelled from the spec: TrustLedger.is_trusted (spec section 4.2). -/
def isTrusted (l : List TrustedClient) (c : String) : Bool :=
  l.any (fun t => t.client_id == c)

/-- Modelled from the spec: TrustLedger.grant — idempotent append-only
issuance; when the identity is already trusted it returns
`newly_granted = false` and changes nothing (spec section 4.2). -/
def grant (l : List TrustedClient) (c : String) (now : Nat) :
    List TrustedClient × Bool :=
  if isTrusted l c then (l, false)
  else (l ++ [⟨c, now⟩], true)

/-- Number of TrustedClient records held for an identity. -/
def countTrusted (l : List TrustedClient) (c : String) : Nat :=
  (l.filter (fun t => t.client_id == c)).length

/-- The `granted_at` of the first TrustedClient record for an identity. -/
def grantedAt (l : List TrustedClient) (c : String) : Option Nat :=
  Option.map TrustedClient.granted_at (l.find? (fun t => t.client_id == c))

/-- Modelled from the spec: the client identity derived from an approved
request.  The spec leaves the derivation unspecified (section 9, open
question); any deterministic function of the request serves, and the
reference client's ip-based display fallback is used here. -/
def deriveIdentity (r : PairingRequest) : String :=
  Option.getD r.client_ip ("unknown")

/-- Wire-shaped result of PairingService.approve: `{ok, status}`. -/
structure ApproveResult where
  ok : Bool
  status : Option Status
deriving DecidableEq

/-- Modelled from the spec: PairingService.approve — NotFound and a
non-pending request surface as `ok = false`; on a pending request it calls
TrustLedger.grant with the derived identity and then
RequestStore.transition to `approved`, reporting the request's actual
resulting status (spec section 4.3). -/
def approve (s : Store) (id : Nat) (now : Nat) : Store × ApproveResult :=
  match getReq s id with
  | none => (s, ⟨false, none⟩)
  | some r =>
    if r.status == Status.pending && !expiredAt s.expiry_window now r then
      let s2 := { s with trusted := (grant s.trusted (deriveIdentity r) now).1 }
      match transition s2 id Status.approved now with
      | Except.ok s3 => (s3, ⟨true, some Status.approved⟩)
      | Except.error _ => (s2, ⟨false, statusOf s2 id⟩)
    else (s, ⟨false, some r.status⟩)

/-- Modelled from the spec: PairingService.dismiss — transitions to
`dismissed`; an already-resolved or unknown request is treated as already
satisfied and still answers `ok = true` (spec section 4.3). -/
def dismiss (s : Store) (id : Nat) (now : Nat) : Store × Bool :=
  match transition s id Status.dismissed now with
  | Except.ok s2 => (s2, true)
  | Except.error _ => (s, true)

/-- Modelled from the spec: PairingService.list_requests — delegates to
RequestStore.list_pending and projects each request to
`{request_id, client_ip, status}` (spec section 4.3). -/
def list_requests (s : Store) (now : Nat) :
    List (Nat × Option String × Status) × Store :=
  ((list_pending s now).1.map (fun r => (r.request_id, r.client_ip, r.status)),
   (list_pending s now).2)

/-- One externally reachable store operation, tagged with the time at which
it runs; used to quantify over arbitrary operation sequences. -/
inductive Op where
  | newRequest (ip : Option String) (now : Nat) : Op
  | listReqs (now : Nat) : Op
  | approveReq (id : Nat) (now : Nat) : Op
  | dismissReq (id : Nat) (now : Nat) : Op
  | transitionReq (id : Nat) (st : Status) (now : Nat) : Op

/-- The store after one operation (results discarded; a failed operation
leaves the store unchanged). -/
def applyOp (s : Store) : Op → Store
  | Op.newRequest ip now =>
    match admitRequest s ip now with
    | Except.ok p => p.1
    | Except.error _ => s
  | Op.listReqs now => (list_pending s now).2
  | Op.approveReq id now => (approve s id now).1
  | Op.dismissReq id now => (dismiss s id now).1
  | Op.transitionReq id st now =>
    match transition s id st now with
    | Except.ok s2 => s2
    | Except.error _ => s

/-- The store after a sequence of operations. -/
def applyOps (s : Store) (ops : List Op) : Store :=
  ops.foldl applyOp s

/-- Repeated approve calls on one id (the serialization of a set of
concurrent `approve(id)` calls, each made atomic by the per-id
check-and-set the spec mandates): the final store and the list of results
in execution order. -/
def approveRepeat (s : Store) (id now : Nat) : Nat → Store × List ApproveResult
  | 0 => (s, [])
  | Nat.succ n =>
    let first := approve s id now
    let rest := approveRepeat first.1 id now n
    (rest.1, first.2 :: rest.2)

end Core

namespace Core

theorem statusOf_eq_some {s : Store} {i : Nat} {a : Status} :
    statusOf s i = some a ↔ ∃ r, getReq s i = some r ∧ r.status = a := by
  simp [statusOf, Option.map_eq_some']

theorem getReq_found {s : Store} {i : Nat} {r : PairingRequest}
    (h : getReq s i = some r) : r.request_id = i := by
  have hp := List.find?_some h
  simpa using hp

theorem find?_map_of_id_eq {f : PairingRequest → PairingRequest}
    (hf : ∀ r, (f r).request_id = r.request_id) (i : Nat) (l : List PairingRequest) :
    (l.map f).find? (fun r => r.request_id == i) =
      Option.map f (l.find? (fun r => r.request_id == i)) := by
  induction l with
  | nil => rfl
  | cons x xs ih =>
    by_cases hx : x.request_id = i
    · have h1 : ((f x).request_id == i) = true := by simp [hf, hx]
      have h2 : (x.request_id == i) = true := by simp [hx]
      rw [List.map_cons,
        @List.find?_cons_of_pos _ (fun r => r.request_id == i) (f x) (xs.map f) h1,
        @List.find?_cons_of_pos _ (fun r => r.request_id == i) x xs h2]
      rfl
    · have h1 : ¬((f x).request_id == i) = true := by simp [hf, hx]
      have h2 : ¬(x.request_id == i) = true := by simp [hx]
      rw [List.map_cons,
        @List.find?_cons_of_neg _ (fun r => r.request_id == i) (f x) (xs.map f) h1,
        @List.find?_cons_of_neg _ (fun r => r.request_id == i) x xs h2, ih]

theorem sweepOne_id (w now : Nat) (r : PairingRequest) :
    (sweepOne w now r).request_id = r.request_id := by
  unfold sweepOne
  split <;> rfl

theorem sweepOne_created (w now : Nat) (r : PairingRequest) :
    (sweepOne w now r).created_at = r.created_at := by
  unfold sweepOne
  split <;> rfl

theorem sweepOne_ip (w now : Nat) (r : PairingRequest) :
    (sweepOne w now r).client_ip = r.client_ip := by
  unfold sweepOne
  split <;> rfl

theorem getReq_sweep (s : Store) (now i : Nat) :
    getReq (sweep s now) i =
      Option.map (sweepOne s.expiry_window now) (getReq s i) := by
  show (s.requests.map (sweepOne s.expiry_window now)).find? (fun r => r.request_id == i) =
    Option.map (sweepOne s.expiry_window now) (s.requests.find? (fun r => r.request_id == i))
  exact find?_map_of_id_eq (fun r => sweepOne_id _ _ r) i s.requests

theorem getReq_setStatus (s : Store) (j : Nat) (st : Status) (i : Nat) :
    getReq (setStatus s j st) i =
      Option.map (fun r => if r.request_id == j then { r with status := st } else r)
        (getReq s i) := by
  unfold getReq setStatus
  exact find?_map_of_id_eq (fun r => by split <;> rfl) i s.requests

theorem statusOf_sweep_cases {s : Store} {i : Nat} {a : Status} (now : Nat)
    (h : statusOf s i = some a) :
    statusOf (sweep s now) i = some a ∨
      (a = Status.pending ∧ statusOf (sweep s now) i = some Status.expired) := by
  obtain ⟨r, hr, hs⟩ := statusOf_eq_some.mp h
  have hg : getReq (sweep s now) i = some (sweepOne s.expiry_window now r) := by
    rw [getReq_sweep, hr]
    rfl
  by_cases hc : (r.status == Status.pending && expiredAt s.expiry_window now r) = true
  · right
    have hsw : sweepOne s.expiry_window now r = { r with status := Status.expired } := by
      unfold sweepOne
      rw [if_pos hc]
    have hsp : r.status = Status.pending := by
      simp [Bool.and_eq_true] at hc
      exact hc.1
    refine ⟨by rw [← hs, hsp], ?_⟩
    rw [statusOf, hg, hsw]
    rfl
  · left
    have hsw : sweepOne s.expiry_window now r = r := by
      unfold sweepOne
      rw [if_neg hc]
    rw [statusOf, hg, hsw]
    simpa using hs

theorem statusOf_sweep_of_ne {s : Store} {i : Nat} {a : Status} (now : Nat)
    (h : statusOf s i = some a) (hna : a ≠ Status.pending) :
    statusOf (sweep s now) i = some a := by
  rcases statusOf_sweep_cases now h with h1 | h2
  · exact h1
  · exact absurd h2.1 hna

theorem statusOf_setStatus_self {s : Store} {i : Nat} {st a : Status}
    (h : statusOf s i = some a) :
    statusOf (setStatus s i st) i = some st := by
  obtain ⟨r, hr, _⟩ := statusOf_eq_some.mp h
  have hid : r.request_id = i := getReq_found hr
  have hg := getReq_setStatus s i st i
  rw [hr] at hg
  rw [statusOf, hg]
  simp [hid]

theorem statusOf_setStatus_other {s : Store} {i j : Nat} {st a : Status}
    (h : statusOf s i = some a) (hne : i ≠ j) :
    statusOf (setStatus s j st) i = some a := by
  obtain ⟨r, hr, hs⟩ := statusOf_eq_some.mp h
  have hid : r.request_id = i := getReq_found hr
  have hg := getReq_setStatus s j st i
  rw [hr] at hg
  rw [statusOf, hg]
  simp [hid, hne, hs]

theorem transition_ok_inv {s : Store} {id : Nat} {new : Status} {now : Nat}
    {s2 : Store} (h : transition s id new now = Except.ok s2) :
    (new = Status.approved ∨ new = Status.dismissed) ∧
      ∃ r, getReq s id = some r ∧ r.status = Status.pending ∧
        expiredAt s.expiry_window now r = false ∧ s2 = setStatus s id new := by
  unfold transition at h
  cases hq : getReq s id with
  | none =>
    rw [hq] at h
    simp at h
  | some r =>
    rw [hq] at h
    dsimp only at h
    by_cases hg : ((new == Status.approved || new == Status.dismissed)
        && r.status == Status.pending
        && !expiredAt s.expiry_window now r) = true
    · rw [if_pos hg] at h
      have hs2 : s2 = setStatus s id new := (Except.ok.inj h).symm
      simp [Bool.and_eq_true, Bool.or_eq_true] at hg
      exact ⟨hg.1.1, r, rfl, hg.1.2, hg.2, hs2⟩
    · rw [if_neg hg] at h
      simp at h

theorem find?_append_some {α : Type} {p : α → Bool} {l l2 : List α} {x : α}
    (h : l.find? p = some x) : (l ++ l2).find? p = some x := by
  rw [List.find?_append, h]
  rfl

theorem find?_append_none {α : Type} {p : α → Bool} {l l2 : List α}
    (h : l.find? p = none) : (l ++ l2).find? p = l2.find? p := by
  rw [List.find?_append, h]
  rfl

theorem status_unique {s : Store} {i : Nat} {a : Status} {r : PairingRequest}
    (h : statusOf s i = some a) (hr : getReq s i = some r) : a = r.status := by
  rw [statusOf, hr] at h
  exact (Option.some.inj h).symm


theorem admitRequest_ok_inv {s : Store} {ip : Option String} {now : Nat}
    {p : Store × Nat} (h : admitRequest s ip now = Except.ok p) :
    p.1 = { s with
      requests := s.requests ++ [⟨s.next_id, ip, Status.pending, now⟩],
      next_id := s.next_id + 1 } := by
  unfold admitRequest at h
  by_cases hc : s.capacity ≤ countPending s
  · rw [if_pos hc] at h
    simp at h
  · rw [if_neg hc] at h
    rw [← Except.ok.inj h]

theorem statusOf_applyOp {s : Store} {i : Nat} {a : Status} (op : Op)
    (h : statusOf s i = some a) :
    statusOf (applyOp s op) i = some a ∨
      (a = Status.pending ∧
        (statusOf (applyOp s op) i = some Status.approved ∨
         statusOf (applyOp s op) i = some Status.dismissed ∨
         statusOf (applyOp s op) i = some Status.expired)) := by
  cases op with
  | newRequest ip now =>
    left
    obtain ⟨r, hr, hs⟩ := statusOf_eq_some.mp h
    simp only [applyOp]
    cases hadm : admitRequest s ip now with
    | error e => exact h
    | ok p =>
      show statusOf p.1 i = some a
      rw [admitRequest_ok_inv hadm]
      exact statusOf_eq_some.mpr ⟨r, find?_append_some hr, hs⟩
  | listReqs now =>
    rcases statusOf_sweep_cases now h with h1 | h2
    · left
      exact h1
    · right
      exact ⟨h2.1, Or.inr (Or.inr h2.2)⟩
  | approveReq id now =>
    simp only [applyOp]
    cases hq : getReq s id with
    | none =>
      left
      have he : approve s id now = (s, ⟨false, none⟩) := by
        unfold approve
        rw [hq]
      rw [he]
      exact h
    | some r =>
      by_cases hg : (r.status == Status.pending && !expiredAt s.expiry_window now r) = true
      · have hsp : r.status = Status.pending := by
          simp [Bool.and_eq_true] at hg
          exact hg.1
        have hnx : expiredAt s.expiry_window now r = false := by
          simp [Bool.and_eq_true] at hg
          exact hg.2
        have hq2 : getReq { s with trusted := (grant s.trusted (deriveIdentity r) now).1 } id
            = some r := hq
        have htr : transition { s with trusted := (grant s.trusted (deriveIdentity r) now).1 }
            id Status.approved now
            = Except.ok (setStatus { s with trusted := (grant s.trusted (deriveIdentity r) now).1 }
                id Status.approved) := by
          unfold transition
          rw [hq2]
          dsimp only
          rw [if_pos (by simp [hsp, hnx])]
        have happ : approve s id now
            = (setStatus { s with trusted := (grant s.trusted (deriveIdentity r) now).1 }
                id Status.approved, ⟨true, some Status.approved⟩) := by
          unfold approve
          rw [hq]
          dsimp only
          rw [if_pos hg, htr]
        by_cases hi : i = id
        · subst hi
          have ha : a = Status.pending := by
            rw [status_unique h hq]
            exact hsp
          right
          refine ⟨ha, Or.inl ?_⟩
          rw [happ]
          exact statusOf_setStatus_self h
        · left
          rw [happ]
          exact statusOf_setStatus_other h hi
      · left
        have he : approve s id now = (s, ⟨false, some r.status⟩) := by
          unfold approve
          rw [hq]
          dsimp only
          rw [if_neg hg]
        rw [he]
        exact h
  | dismissReq id now =>
    simp only [applyOp]
    cases ht : transition s id Status.dismissed now with
    | error e =>
      left
      have he : dismiss s id now = (s, true) := by
        unfold dismiss
        rw [ht]
      rw [he]
      exact h
    | ok s2 =>
      obtain ⟨_, r, hr, hp, hx, hs2⟩ := transition_ok_inv ht
      have he : dismiss s id now = (s2, true) := by
        unfold dismiss
        rw [ht]
      by_cases hi : i = id
      · subst hi
        have ha : a = Status.pending := by
          rw [status_unique h hr]
          exact hp
        right
        refine ⟨ha, Or.inr (Or.inl ?_)⟩
        rw [he]
        show statusOf s2 i = some Status.dismissed
        rw [hs2]
        exact statusOf_setStatus_self h
      · left
        rw [he]
        show statusOf s2 i = some a
        rw [hs2]
        exact statusOf_setStatus_other h hi
  | transitionReq id st now =>
    simp only [applyOp]
    cases ht : transition s id st now with
    | error e =>
      left
      exact h
    | ok s2 =>
      obtain ⟨hnew, r, hr, hp, hx, hs2⟩ := transition_ok_inv ht
      by_cases hi : i = id
      · subst hi
        have ha : a = Status.pending := by
          rw [status_unique h hr]
          exact hp
        have hfin : statusOf s2 i = some st := by
          rw [hs2]
          exact statusOf_setStatus_self h
        right
        refine ⟨ha, ?_⟩
        rcases hnew with h1 | h1
        · exact Or.inl (by rw [hfin, h1])
        · exact Or.inr (Or.inl (by rw [hfin, h1]))
      · left
        rw [hs2]
        exact statusOf_setStatus_other h hi

theorem statusOf_applyOps_frozen {i : Nat} {a : Status} (hna : a ≠ Status.pending)
    (ops : List Op) :
    ∀ s : Store, statusOf s i = some a → statusOf (applyOps s ops) i = some a := by
  induction ops with
  | nil =>
    intro s h
    exact h
  | cons op rest ih =>
    intro s h
    show statusOf (applyOps (applyOp s op) rest) i = some a
    rcases statusOf_applyOp op h with h1 | h2
    · exact ih _ h1
    · exact absurd h2.1 hna

theorem approve_of_pending {s : Store} {id now : Nat} {r : PairingRequest}
    (hq : getReq s id = some r) (hp : r.status = Status.pending)
    (hx : expiredAt s.expiry_window now r = false) :
    approve s id now
      = (setStatus { s with trusted := (grant s.trusted (deriveIdentity r) now).1 }
          id Status.approved, ⟨true, some Status.approved⟩) := by
  have hq2 : getReq { s with trusted := (grant s.trusted (deriveIdentity r) now).1 } id
      = some r := hq
  have htr : transition { s with trusted := (grant s.trusted (deriveIdentity r) now).1 }
      id Status.approved now
      = Except.ok (setStatus { s with trusted := (grant s.trusted (deriveIdentity r) now).1 }
          id Status.approved) := by
    unfold transition
    rw [hq2]
    dsimp only
    rw [if_pos (by simp [hp, hx])]
  unfold approve
  rw [hq]
  dsimp only
  rw [if_pos (by simp [hp, hx]), htr]

theorem approve_of_resolved {s : Store} {id now : Nat} {r : PairingRequest}
    (hq : getReq s id = some r)
    (hg : ¬(r.status == Status.pending && !expiredAt s.expiry_window now r) = true) :
    approve s id now = (s, ⟨false, some r.status⟩) := by
  unfold approve
  rw [hq]
  dsimp only
  rw [if_neg hg]

theorem approve_of_status_approved (s : Store) (id now : Nat)
    (h : statusOf s id = some Status.approved) :
    approve s id now = (s, ⟨false, some Status.approved⟩) := by
  obtain ⟨r, hq, hs⟩ := statusOf_eq_some.mp h
  rw [approve_of_resolved hq (by simp [hs]), hs]

theorem approveRepeat_stable (id now : Nat) (n : Nat) :
    ∀ s : Store, statusOf s id = some Status.approved →
      approveRepeat s id now n = (s, List.replicate n ⟨false, some Status.approved⟩) := by
  induction n with
  | zero =>
    intro s h
    rfl
  | succ m ih =>
    intro s h
    show ((approveRepeat (approve s id now).1 id now m).1,
        (approve s id now).2 :: (approveRepeat (approve s id now).1 id now m).2)
      = (s, List.replicate (m + 1) ⟨false, some Status.approved⟩)
    rw [approve_of_status_approved s id now h]
    dsimp only
    rw [ih s h]
    rfl

theorem isTrusted_iff_pos {l : List TrustedClient} {c : String} :
    isTrusted l c = true ↔ 0 < countTrusted l c := by
  constructor
  · intro h
    obtain ⟨x, hx, hpx⟩ := List.any_eq_true.mp h
    have hm : x ∈ l.filter (fun t => t.client_id == c) := by
      rw [List.mem_filter]
      exact ⟨hx, hpx⟩
    apply List.length_pos.mpr
    intro he
    rw [he] at hm
    cases hm
  · intro h
    have hne := List.length_pos.mp h
    cases hfe : l.filter (fun t => t.client_id == c) with
    | nil => exact absurd hfe hne
    | cons x xs =>
      have hx : x ∈ l.filter (fun t => t.client_id == c) := by
        rw [hfe]
        exact List.mem_cons_self x xs
      have hmf := List.mem_filter.mp hx
      exact List.any_eq_true.mpr ⟨x, hmf.1, hmf.2⟩

theorem grant_of_trusted (l : List TrustedClient) (c : String) (t : Nat)
    (h : isTrusted l c = true) : grant l c t = (l, false) := by
  unfold grant
  rw [if_pos h]

theorem isTrusted_grant (l : List TrustedClient) (c : String) (t : Nat) :
    isTrusted (grant l c t).1 c = true := by
  unfold grant
  by_cases h : isTrusted l c = true
  · rw [if_pos h]
    exact h
  · rw [if_neg h]
    show isTrusted (l ++ [⟨c, t⟩]) c = true
    exact List.any_eq_true.mpr
      ⟨⟨c, t⟩, List.mem_append_right _ (List.mem_singleton.mpr rfl), by simp⟩

theorem countTrusted_grant (l : List TrustedClient) (c : String) (t : Nat)
    (h : countTrusted l c ≤ 1) : countTrusted (grant l c t).1 c = 1 := by
  unfold grant
  by_cases ht : isTrusted l c = true
  · rw [if_pos ht]
    show countTrusted l c = 1
    have := isTrusted_iff_pos.mp ht
    omega
  · rw [if_neg ht]
    show countTrusted (l ++ [⟨c, t⟩]) c = 1
    have h0 : countTrusted l c = 0 := by
      by_contra hne
      have hpos : 0 < countTrusted l c := by omega
      exact ht (isTrusted_iff_pos.mpr hpos)
    unfold countTrusted at h0 ⊢
    rw [List.filter_append, List.length_append, h0]
    simp

theorem grantedAt_grant_new (l : List TrustedClient) (c : String) (t : Nat)
    (h : isTrusted l c = false) : grantedAt (grant l c t).1 c = some t := by
  unfold grant
  rw [if_neg (by simp [h])]
  show grantedAt (l ++ [⟨c, t⟩]) c = some t
  unfold grantedAt
  have hn : l.find? (fun t0 => t0.client_id == c) = none := by
    apply List.find?_eq_none.mpr
    intro x hx hpx
    have hany : isTrusted l c = true := List.any_eq_true.mpr ⟨x, hx, hpx⟩
    rw [h] at hany
    cases hany
  rw [find?_append_none hn]
  simp

theorem mem_insertByCreated {r x : PairingRequest} {l : List PairingRequest} :
    x ∈ insertByCreated r l ↔ x = r ∨ x ∈ l := by
  induction l with
  | nil => simp [insertByCreated]
  | cons y ys ih =>
    unfold insertByCreated
    by_cases hc : r.created_at ≤ y.created_at
    · rw [if_pos hc]
      simp [List.mem_cons]
    · rw [if_neg hc]
      simp [List.mem_cons, ih]
      tauto

theorem sorted_insertByCreated {r : PairingRequest} {l : List PairingRequest}
    (h : List.Pairwise (fun a b => a.created_at ≤ b.created_at) l) :
    List.Pairwise (fun a b => a.created_at ≤ b.created_at) (insertByCreated r l) := by
  induction l with
  | nil => simp [insertByCreated]
  | cons y ys ih =>
    rw [List.pairwise_cons] at h
    unfold insertByCreated
    by_cases hc : r.created_at ≤ y.created_at
    · rw [if_pos hc]
      refine List.pairwise_cons.mpr ⟨?_, List.pairwise_cons.mpr ⟨h.1, h.2⟩⟩
      intro z hz
      rcases List.mem_cons.mp hz with h1 | h1
      · rw [h1]
        exact hc
      · exact le_trans hc (h.1 z h1)
    · rw [if_neg hc]
      refine List.pairwise_cons.mpr ⟨?_, ih h.2⟩
      intro z hz
      rcases mem_insertByCreated.mp hz with h1 | h1
      · rw [h1]
        omega
      · exact h.1 z h1

theorem sorted_sortByCreated (l : List PairingRequest) :
    List.Pairwise (fun a b => a.created_at ≤ b.created_at) (sortByCreated l) := by
  induction l with
  | nil => exact List.Pairwise.nil
  | cons x xs ih => exact sorted_insertByCreated ih

theorem mem_sortByCreated {x : PairingRequest} {l : List PairingRequest} :
    x ∈ sortByCreated l ↔ x ∈ l := by
  induction l with
  | nil => simp [sortByCreated]
  | cons y ys ih =>
    unfold sortByCreated
    rw [mem_insertByCreated]
    simp [ih, List.mem_cons]

theorem sweepOne_pending_inv {w now : Nat} {r : PairingRequest}
    (h : (sweepOne w now r).status = Status.pending) :
    sweepOne w now r = r ∧ r.status = Status.pending ∧ expiredAt w now r = false := by
  unfold sweepOne at h ⊢
  by_cases hc : (r.status == Status.pending && expiredAt w now r) = true
  · rw [if_pos hc] at h
    simp at h
  · rw [if_neg hc] at h ⊢
    refine ⟨rfl, h, ?_⟩
    simp [Bool.and_eq_true, h] at hc
    exact hc

theorem list_pending_mem {s : Store} {now : Nat} {r : PairingRequest}
    (h : r ∈ (list_pending s now).1) :
    r.status = Status.pending ∧ expiredAt s.expiry_window now r = false := by
  have h1 : r ∈ (sweep s now).requests.filter (fun q => q.status == Status.pending) :=
    mem_sortByCreated.mp h
  have h2 := List.mem_filter.mp h1
  obtain ⟨r0, hr0, hfr⟩ := List.mem_map.mp h2.1
  have hps : r.status = Status.pending := by simpa using h2.2
  obtain ⟨heq, hp0, hx0⟩ := sweepOne_pending_inv (by rw [hfr]; exact hps)
  refine ⟨hps, ?_⟩
  rw [← hfr, heq]
  exact hx0

theorem dismiss_of_error {s : Store} {id now : Nat} {e : StoreError}
    (h : transition s id Status.dismissed now = Except.error e) :
    dismiss s id now = (s, true) := by
  unfold dismiss
  rw [h]

theorem dismiss_of_ok {s : Store} {id now : Nat} {s2 : Store}
    (h : transition s id Status.dismissed now = Except.ok s2) :
    dismiss s id now = (s2, true) := by
  unfold dismiss
  rw [h]

theorem transition_error_of_none {s : Store} {id : Nat} (new : Status) (now : Nat)
    (h : getReq s id = none) :
    transition s id new now = Except.error StoreError.notFound := by
  unfold transition
  rw [h]

theorem transition_error_of_resolved {s : Store} {id : Nat} {r : PairingRequest}
    (new : Status) (now : Nat) (h : getReq s id = some r)
    (hs : r.status ≠ Status.pending) :
    transition s id new now = Except.error StoreError.invalidTransition := by
  unfold transition
  rw [h]
  dsimp only
  rw [if_neg (by simp [hs])]

theorem transition_dismissed_of_pending {s : Store} {id now : Nat} {r : PairingRequest}
    (h : getReq s id = some r) (hp : r.status = Status.pending)
    (hx : expiredAt s.expiry_window now r = false) :
    transition s id Status.dismissed now = Except.ok (setStatus s id Status.dismissed) := by
  unfold transition
  rw [h]
  dsimp only
  rw [if_pos (by simp [hp, hx])]

/-- Claim C1: for a pending, unexpired request, any serialization of a set of
concurrent `approve(id)` calls (each call atomic per the spec's check-and-set)
has exactly the first call succeed with `ok = true, status = approved`; every
later call observes the already-resolved request as `ok = false`, the store
never changes after the first call (so the ledger grant is not re-attempted),
and the derived identity ends up with exactly one TrustedClient record. -/
theorem concurrent_approve_exactly_once (s : Store) (id now n : Nat)
    (r : PairingRequest) (hq : getReq s id = some r)
    (hp : r.status = Status.pending)
    (hx : expiredAt s.expiry_window now r = false)
    (hct : countTrusted s.trusted (deriveIdentity r) ≤ 1) :
    (approveRepeat s id now (n + 1)).2
        = ⟨true, some Status.approved⟩ :: List.replicate n ⟨false, some Status.approved⟩ ∧
    (approveRepeat s id now (n + 1)).1 = (approve s id now).1 ∧
    countTrusted (approveRepeat s id now (n + 1)).1.trusted (deriveIdentity r) = 1 := by
  have hfirst := approve_of_pending hq hp hx
  have hsp : statusOf s id = some Status.pending := by
    rw [statusOf_eq_some]
    exact ⟨r, hq, hp⟩
  have hs2 : statusOf { s with trusted := (grant s.trusted (deriveIdentity r) now).1 } id
      = some Status.pending := hsp
  have happr : statusOf (approve s id now).1 id = some Status.approved := by
    rw [hfirst]
    exact statusOf_setStatus_self hs2
  have hrep := approveRepeat_stable id now n (approve s id now).1 happr
  refine ⟨?_, ?_, ?_⟩
  · show (approve s id now).2 :: (approveRepeat (approve s id now).1 id now n).2
      = ⟨true, some Status.approved⟩ :: List.replicate n ⟨false, some Status.approved⟩
    rw [hrep, hfirst]
  · show (approveRepeat (approve s id now).1 id now n).1 = (approve s id now).1
    rw [hrep]
  · show countTrusted (approveRepeat (approve s id now).1 id now n).1.trusted
        (deriveIdentity r) = 1
    rw [hrep]
    show countTrusted (approve s id now).1.trusted (deriveIdentity r) = 1
    rw [hfirst]
    show countTrusted (grant s.trusted (deriveIdentity r) now).1 (deriveIdentity r) = 1
    exact countTrusted_grant s.trusted (deriveIdentity r) now hct

/-- Witness for C1 at a one-request store and two approve calls. -/
theorem concurrent_approve_exactly_once_witness :
    (approveRepeat ⟨[⟨0, some ("10.0.0.5"), Status.pending, 0⟩], [], 1, 10, 100⟩ 0 0 2).2
        = ⟨true, some Status.approved⟩ :: List.replicate 1 ⟨false, some Status.approved⟩ ∧
    countTrusted
        (approveRepeat ⟨[⟨0, some ("10.0.0.5"), Status.pending, 0⟩], [], 1, 10, 100⟩ 0 0 2).1.trusted
        (deriveIdentity ⟨0, some ("10.0.0.5"), Status.pending, 0⟩) = 1 :=
  ⟨(concurrent_approve_exactly_once
      ⟨[⟨0, some ("10.0.0.5"), Status.pending, 0⟩], [], 1, 10, 100⟩ 0 0 1
      ⟨0, some ("10.0.0.5"), Status.pending, 0⟩ (by decide) rfl (by decide) (by decide)).1,
   (concurrent_approve_exactly_once
      ⟨[⟨0, some ("10.0.0.5"), Status.pending, 0⟩], [], 1, 10, 100⟩ 0 0 1
      ⟨0, some ("10.0.0.5"), Status.pending, 0⟩ (by decide) rfl (by decide) (by decide)).2.2⟩

/-- Claim C2: once a request's status leaves `pending` it never changes again
under any sequence of store operations (so it never returns to `pending`);
any single operation that changes a status starts from `pending` and ends in
`approved`, `dismissed` or `expired`; and a request that a `list_pending`
read left as `expired` stays `expired` under all later operations. -/
theorem request_status_single_step :
    (∀ (s : Store) (ops : List Op) (i : Nat) (st : Status),
        statusOf s i = some st → st ≠ Status.pending →
        statusOf (applyOps s ops) i = some st) ∧
    (∀ (s : Store) (op : Op) (i : Nat) (a b : Status),
        statusOf s i = some a → statusOf (applyOp s op) i = some b → a ≠ b →
        a = Status.pending ∧
          (b = Status.approved ∨ b = Status.dismissed ∨ b = Status.expired)) ∧
    (∀ (s : Store) (now i : Nat) (ops : List Op),
        statusOf (list_pending s now).2 i = some Status.expired →
        statusOf (applyOps (list_pending s now).2 ops) i = some Status.expired) := by
  refine ⟨?_, ?_, ?_⟩
  · intro s ops i st h hn
    exact statusOf_applyOps_frozen hn ops s h
  · intro s op i a b ha hb hne
    rcases statusOf_applyOp op ha with h1 | h2
    · rw [h1] at hb
      exact absurd (Option.some.inj hb) hne
    · refine ⟨h2.1, ?_⟩
      rcases h2.2 with hx | hx | hx
      · rw [hx] at hb
        exact Or.inl (Option.some.inj hb).symm
      · rw [hx] at hb
        exact Or.inr (Or.inl (Option.some.inj hb).symm)
      · rw [hx] at hb
        exact Or.inr (Or.inr (Option.some.inj hb).symm)
  · intro s now i ops h
    exact statusOf_applyOps_frozen (by decide) ops _ h

/-- Witness for C2: an approved request stays approved across a dismiss and
an approve. -/
theorem request_status_single_step_witness :
    statusOf (applyOps ⟨[⟨0, none, Status.approved, 0⟩], [], 1, 10, 100⟩
        [Op.dismissReq 0 0, Op.approveReq 0 0]) 0 = some Status.approved :=
  request_status_single_step.1 ⟨[⟨0, none, Status.approved, 0⟩], [], 1, 10, 100⟩
    [Op.dismissReq 0 0, Op.approveReq 0 0] 0 Status.approved (by decide) (by decide)

/-- Claim C3: dismiss always answers `ok = true` (pending, already-resolved
and unknown ids alike); it is idempotent — a repeated call changes nothing
further, and a dismiss after a successful dismiss is a no-op at any later
time; an unknown or already-resolved id leaves the store untouched; and a
pending, unexpired request ends up `dismissed`. -/
theorem dismiss_idempotent_ok (s : Store) (id now : Nat) :
    (dismiss s id now).2 = true ∧
    dismiss (dismiss s id now).1 id now = ((dismiss s id now).1, true) ∧
    (∀ now2, statusOf s id = some Status.dismissed → dismiss s id now2 = (s, true)) ∧
    (getReq s id = none → (dismiss s id now).1 = s) ∧
    (∀ r, getReq s id = some r → r.status ≠ Status.pending → (dismiss s id now).1 = s) ∧
    (∀ r, getReq s id = some r → r.status = Status.pending →
        expiredAt s.expiry_window now r = false →
        statusOf (dismiss s id now).1 id = some Status.dismissed) := by
  have hresolved : ∀ now2, statusOf s id = some Status.dismissed →
      dismiss s id now2 = (s, true) := by
    intro now2 h
    obtain ⟨r, hq, hsr⟩ := statusOf_eq_some.mp h
    exact dismiss_of_error
      (transition_error_of_resolved Status.dismissed now2 hq (by rw [hsr]; decide))
  refine ⟨?_, ?_, hresolved, ?_, ?_, ?_⟩
  · cases ht : transition s id Status.dismissed now with
    | ok s2 => rw [dismiss_of_ok ht]
    | error e => rw [dismiss_of_error ht]
  · cases ht : transition s id Status.dismissed now with
    | ok s2 =>
      rw [dismiss_of_ok ht]
      show dismiss s2 id now = (s2, true)
      obtain ⟨_, r, hq, hp, hx, hs2⟩ := transition_ok_inv ht
      have hsd : statusOf s2 id = some Status.dismissed := by
        rw [hs2]
        exact statusOf_setStatus_self (statusOf_eq_some.mpr ⟨r, hq, rfl⟩)
      obtain ⟨r2, hq2, hsr2⟩ := statusOf_eq_some.mp hsd
      exact dismiss_of_error
        (transition_error_of_resolved Status.dismissed now hq2 (by rw [hsr2]; decide))
    | error e =>
      rw [dismiss_of_error ht]
      show dismiss s id now = (s, true)
      exact dismiss_of_error ht
  · intro h
    rw [dismiss_of_error (transition_error_of_none Status.dismissed now h)]
  · intro r hq hs
    rw [dismiss_of_error (transition_error_of_resolved Status.dismissed now hq hs)]
  · intro r hq hp hx
    rw [dismiss_of_ok (transition_dismissed_of_pending hq hp hx)]
    show statusOf (setStatus s id Status.dismissed) id = some Status.dismissed
    exact statusOf_setStatus_self (statusOf_eq_some.mpr ⟨r, hq, rfl⟩)

/-- Witness for C3 at a one-request store. -/
theorem dismiss_idempotent_ok_witness :
    statusOf (dismiss ⟨[⟨0, none, Status.pending, 0⟩], [], 1, 10, 100⟩ 0 0).1 0
        = some Status.dismissed ∧
    (dismiss ⟨[⟨0, none, Status.pending, 0⟩], [], 1, 10, 100⟩ 0 0).2 = true :=
  ⟨(dismiss_idempotent_ok ⟨[⟨0, none, Status.pending, 0⟩], [], 1, 10, 100⟩ 0 0).2.2.2.2.2
      ⟨0, none, Status.pending, 0⟩ (by decide) rfl (by decide),
   (dismiss_idempotent_ok ⟨[⟨0, none, Status.pending, 0⟩], [], 1, 10, 100⟩ 0 0).1⟩

/-- Claim C4: TrustLedger.grant is idempotent.  Granting an already-trusted
identity returns `newly_granted = false` and changes nothing; a second grant
after a first is a no-op; assuming at most one existing record per identity,
after a grant the identity holds exactly one TrustedClient record; the second
grant leaves `granted_at` untouched, and a first grant of an untrusted
identity records its own timestamp. -/
theorem grant_idempotent (l : List TrustedClient) (c : String) (t1 t2 : Nat)
    (hw : countTrusted l c ≤ 1) :
    (isTrusted l c = true → grant l c t2 = (l, false)) ∧
    grant (grant l c t1).1 c t2 = ((grant l c t1).1, false) ∧
    countTrusted (grant l c t1).1 c = 1 ∧
    grantedAt (grant (grant l c t1).1 c t2).1 c = grantedAt (grant l c t1).1 c ∧
    (isTrusted l c = false → grantedAt (grant l c t1).1 c = some t1) := by
  refine ⟨fun h => grant_of_trusted l c t2 h, ?_, countTrusted_grant l c t1 hw, ?_,
    fun h => grantedAt_grant_new l c t1 h⟩
  · exact grant_of_trusted _ c t2 (isTrusted_grant l c t1)
  · rw [grant_of_trusted _ c t2 (isTrusted_grant l c t1)]

/-- Witness for C4 at a one-record ledger. -/
theorem grant_idempotent_witness :
    grant (grant [⟨("10.0.0.5"), 5⟩] ("10.0.0.5") 7).1 ("10.0.0.5") 9
        = ((grant [⟨("10.0.0.5"), 5⟩] ("10.0.0.5") 7).1, false) ∧
    countTrusted (grant [⟨("10.0.0.5"), 5⟩] ("10.0.0.5") 7).1 ("10.0.0.5") = 1 :=
  ⟨(grant_idempotent [⟨("10.0.0.5"), 5⟩] ("10.0.0.5") 7 9 (by decide)).2.1,
   (grant_idempotent [⟨("10.0.0.5"), 5⟩] ("10.0.0.5") 7 9 (by decide)).2.2.1⟩

/-- Claim C5: list_pending / list_requests return only requests that are
pending and inside the expiry window, ordered by `created_at` ascending; the
only side effect is the lazy expiry pass: the store after the call is the
swept store, whose trust set, id counter and request identities are
untouched and whose statuses change only from `pending` to `expired`. -/
theorem list_pending_correct (s : Store) (now : Nat) :
    (∀ r, r ∈ (list_pending s now).1 →
        r.status = Status.pending ∧ expiredAt s.expiry_window now r = false) ∧
    List.Pairwise (fun a b => a.created_at ≤ b.created_at) (list_pending s now).1 ∧
    (∀ e, e ∈ (list_requests s now).1 → e.2.2 = Status.pending) ∧
    (list_pending s now).2 = sweep s now ∧
    (sweep s now).trusted = s.trusted ∧
    (sweep s now).next_id = s.next_id ∧
    (sweep s now).requests.map (fun r => (r.request_id, r.client_ip, r.created_at))
        = s.requests.map (fun r => (r.request_id, r.client_ip, r.created_at)) ∧
    (∀ i a, statusOf s i = some a →
        statusOf (sweep s now) i = some a ∨
          (a = Status.pending ∧ statusOf (sweep s now) i = some Status.expired)) := by
  refine ⟨fun r hr => list_pending_mem hr, ?_, ?_, rfl, rfl, rfl, ?_, ?_⟩
  · exact sorted_sortByCreated _
  · intro e he
    obtain ⟨r, hr, hpr⟩ := List.mem_map.mp he
    rw [← hpr]
    exact (list_pending_mem hr).1
  · show (s.requests.map (sweepOne s.expiry_window now)).map
        (fun r => (r.request_id, r.client_ip, r.created_at))
      = s.requests.map (fun r => (r.request_id, r.client_ip, r.created_at))
    rw [List.map_map]
    have hf : (fun r : PairingRequest => (r.request_id, r.client_ip, r.created_at))
          ∘ sweepOne s.expiry_window now
        = (fun r : PairingRequest => (r.request_id, r.client_ip, r.created_at)) := by
      funext r
      show ((sweepOne s.expiry_window now r).request_id,
        (sweepOne s.expiry_window now r).client_ip,
        (sweepOne s.expiry_window now r).created_at) = (r.request_id, r.client_ip, r.created_at)
      rw [sweepOne_id, sweepOne_ip, sweepOne_created]
    rw [hf]
  · intro i a h
    exact statusOf_sweep_cases now h

/-- Witness for C5 at a two-request store: the approved request is excluded
and the pending one is reported pending and unexpired. -/
theorem list_pending_correct_witness :
    (⟨0, none, Status.pending, 5⟩ : PairingRequest).status = Status.pending ∧
    expiredAt 100 10 ⟨0, none, Status.pending, 5⟩ = false :=
  (list_pending_correct
      ⟨[⟨0, none, Status.pending, 5⟩, ⟨1, none, Status.approved, 3⟩], [], 2, 10, 100⟩ 10).1
    ⟨0, none, Status.pending, 5⟩ (by decide)

end Core

namespace DaemonJs

/-- Claim C6, counterexample: on the two-entry oldest-first list
`[r1, r2]` the handler renders and wires the card of the first (oldest)
entry `r1`, not of the most recent entry `r2` that the list contract
designates. -/
theorem fetch_shows_oldest_cex :
    (fetchRequests (FetchOutcome.response true (Except.ok
        ⟨some [⟨"r1", none, "pending"⟩, ⟨"r2", none, "pending"⟩]⟩))).render
      = cardOf ⟨"r1", none, "pending"⟩ ∧
    mostRecent [⟨"r1", none, "pending"⟩, ⟨"r2", none, "pending"⟩]
      = some ⟨"r2", none, "pending"⟩ ∧
    (fetchRequests (FetchOutcome.response true (Except.ok
        ⟨some [⟨"r1", none, "pending"⟩, ⟨"r2", none, "pending"⟩]⟩))).render
      ≠ cardOf ⟨"r2", none, "pending"⟩ := by
  decide

/-- Claim C6, amended: for every non-empty returned list, `fetchRequests`
displays — and wires both buttons to — the first element `reqs[0]`, which
under the oldest-first ordering contract is the oldest pending request. -/
theorem fetch_shows_first (b : RequestsBody) (r : ReqEntry) (rest : List ReqEntry)
    (h : b.requests = some (r :: rest)) :
    (fetchRequests (FetchOutcome.response true (Except.ok b))).render = cardOf r := by
  cases b with
  | mk reqs =>
    cases h
    rfl

/-- Witness for the amended C6 at a one-entry list. -/
theorem fetch_shows_first_witness :
    (fetchRequests (FetchOutcome.response true (Except.ok
        ⟨some [⟨"r9", none, "pending"⟩]⟩))).render = cardOf ⟨"r9", none, "pending"⟩ :=
  fetch_shows_first ⟨some [⟨"r9", none, "pending"⟩]⟩ ⟨"r9", none, "pending"⟩ [] rfl

/-- Claim C7: `fetchRequests` treats a non-2xx response and a JSON-parse
failure the same way as far as the page is concerned — no render change, no
escaped exception — and the poller runs every fixed 4000 ms tick
unconditionally: one step per tick, each step depending only on that tick's
outcome. -/
theorem poller_uniform_error_handling :
    (∀ b : Except Unit RequestsBody,
        (fetchRequests (FetchOutcome.response false b)).render = RenderAction.noChange ∧
        (fetchRequests (FetchOutcome.response false b)).throws = false) ∧
    ((fetchRequests (FetchOutcome.response true (Except.error ()))).render
        = RenderAction.noChange ∧
      (fetchRequests (FetchOutcome.response true (Except.error ()))).throws = false) ∧
    (∀ b : Except Unit RequestsBody,
        ((fetchRequests (FetchOutcome.response false b)).render,
          (fetchRequests (FetchOutcome.response false b)).throws)
          = ((fetchRequests (FetchOutcome.response true (Except.error ()))).render,
              (fetchRequests (FetchOutcome.response true (Except.error ()))).throws)) ∧
    pollIntervalMs = 4000 ∧
    (∀ outs : List (FetchOutcome RequestsBody), (pollRun outs).length = outs.length) ∧
    (∀ (outs : List (FetchOutcome RequestsBody)) (o : FetchOutcome RequestsBody),
        pollRun (outs ++ [o]) = pollRun outs ++ [fetchRequests o]) := by
  refine ⟨fun b => ⟨rfl, rfl⟩, ⟨rfl, rfl⟩, fun b => rfl, rfl, ?_, ?_⟩
  · intro outs
    simp [pollRun]
  · intro outs o
    simp [pollRun]

/-- Claim C8, counterexample: the body `{ok: true, status: "APPROVED"}` —
`"APPROVED"` is a letter-case variant of `"approved"` — makes the approve
handler show the failure text, not the trusted message: the status check at
`daemon.js` line 55 is case-sensitive. -/
theorem approve_case_sensitive_cex :
    (approveHandler (FetchOutcome.response true
        (Except.ok ⟨true, some ("APPROVED")⟩))).statusRowText = some failMsg ∧
    (approveHandler (FetchOutcome.response true
        (Except.ok ⟨true, some ("APPROVED")⟩))).statusRowText ≠ some successMsg ∧
    jsToUpper ("APPROVED") = jsToUpper ("approved") := by
  decide

/-- Claim C8, amended: the approve handler shows the trusted message exactly
when the parsed body has `ok = true` and `status` equal to the lowercase
string `"approved"`; the `toUpperCase` call is display-only normalization in
`fetchRequests`. -/
theorem approve_requires_exact_status (hok : Bool) (b : ApproveBody) :
    (approveHandler (FetchOutcome.response hok (Except.ok b))).statusRowText
        = some successMsg
      ↔ (b.ok = true ∧ b.status = some ("approved")) := by
  cases b with
  | mk bok bst =>
    show (if (bok && bst == some ("approved")) = true then
        (⟨some successMsg, true, false, false⟩ : ApproveStep)
      else ⟨some failMsg, false, false, false⟩).statusRowText = some successMsg
      ↔ (bok = true ∧ bst = some ("approved"))
    by_cases hc : (bok && bst == some ("approved")) = true
    · rw [if_pos hc]
      simp at hc
      simp [hc]
    · rw [if_neg hc]
      constructor
      · intro hcon
        exact absurd (Option.some.inj hcon) (by decide)
      · intro hcon
        refine absurd ?_ hc
        rw [hcon.1, hcon.2]
        decide

/-- Claim C9: a 2xx response whose body lacks the `requests` field is treated
exactly as an empty list: the empty state is rendered, nothing is logged and
nothing is thrown. -/
theorem fetch_missing_requests_empty (b : RequestsBody) (h : b.requests = none) :
    fetchRequests (FetchOutcome.response true (Except.ok b))
      = ⟨RenderAction.emptyState, false, false⟩ := by
  cases b with
  | mk reqs =>
    cases h
    rfl

/-- Witness for C9 at the literal body with no `requests` field. -/
theorem fetch_missing_requests_empty_witness :
    fetchRequests (FetchOutcome.response true (Except.ok ⟨none⟩))
      = ⟨RenderAction.emptyState, false, false⟩ :=
  fetch_missing_requests_empty ⟨none⟩ rfl

/-- Claim C10: the dismiss handler never inspects the response — any two
resolved responses, whatever their status flag or body, produce the same
observable step, which re-fetches the request list; a rejected fetch is only
logged, with no re-fetch and no escaped exception. -/
theorem dismiss_ignores_response (β : Type) (ok1 ok2 : Bool) (b1 b2 : β) :
    dismissHandler (DismissOutcome.response ok1 b1)
        = dismissHandler (DismissOutcome.response ok2 b2) ∧
    (dismissHandler (DismissOutcome.response ok1 b1)).refetch = true ∧
    (dismissHandler (DismissOutcome.response ok1 b1)).throws = false ∧
    dismissHandler (@DismissOutcome.networkError β) = ⟨false, true, false⟩ :=
  ⟨rfl, rfl, rfl, rfl⟩

end DaemonJs
